import Mathlib

/-!
Verification development for the android-sync repository.

Part 1 models the ADB message layer of
`crates/adb_client/src/device/adb_message_device.rs`: the authentication
handshake, stream acknowledgement loops, session opening and the `sync:`
file-push driver.  Transport reads are modelled by a finite script of
inbound messages; transport writes are collected into an output list.

Part 2 models the sync driver of `src-tauri/src/lib.rs`: remote path
normalization, the directory-depth sort, the STAT/skip decision, the
mkdir deduplication and the dry-run walk, over an abstract local
filesystem tree and a STAT oracle for the device.
-/

namespace AndroidSync

/-- The six ADB control commands plus SYNC (enum `MessageCommand`). -/
inductive MCmd where
  | Cnxn
  | Auth
  | Open
  | Okay
  | Clse
  | Wrte
  | Sync
deriving DecidableEq, Repr

/-- An ADB transport message: command, two u32 arguments and a payload of
bytes (`ADBTransportMessage`; header checksums are handled below the layer
modelled here). -/
structure AMsg where
  cmd : MCmd
  arg0 : Nat
  arg1 : Nat
  payload : List Nat
deriving DecidableEq, Repr

/-- AUTH subtype constant: the device sends a 20-byte token to sign. -/
def AUTH_TOKEN : Nat := 1

/-- AUTH subtype constant: reply carrying the RSA signature. -/
def AUTH_SIGNATURE : Nat := 2

/-- AUTH subtype constant: public-key request/delivery. -/
def AUTH_RSAPUBLICKEY : Nat := 3

/-- Errors of the device layer (the `RustADBError` variants the modelled
functions produce).  `timeout` models a read that finds no message before
the deadline, `readEof` a failed blocking read. -/
inductive DevErr where
  | wrongResponseReceived (got expected : MCmd)
  | adbRequestFailed (msg : List Char)
  | timeout
  | readEof
deriving DecidableEq, Repr

/-- The `auth_handshake` loop of `ADBMessageDevice`: consume one inbound
message at a time (the first is given, the rest come from the script).
CNXN ends the handshake; AUTH TOKEN is answered with AUTH SIGNATURE over
the signed payload; AUTH RSAPUBLICKEY is answered with the NUL-terminated
public key; stray CLSE/OKAY/WRTE are ignored; anything else is an error.
Returns the list of written messages. -/
def auth_handshake (sign : List Nat → List Nat) (pubkey : List Nat) :
    AMsg → List AMsg → Except DevErr (List AMsg)
  | m, script =>
    match m.cmd with
    | .Cnxn => .ok []
    | .Auth =>
      if m.arg0 = AUTH_TOKEN then
        match script with
        | [] => .error .timeout
        | n :: rest =>
          (auth_handshake sign pubkey n rest).map
            (fun outs => AMsg.mk .Auth AUTH_SIGNATURE 0 (sign m.payload) :: outs)
      else if m.arg0 = AUTH_RSAPUBLICKEY then
        match script with
        | [] => .error .timeout
        | n :: rest =>
          (auth_handshake sign pubkey n rest).map
            (fun outs => AMsg.mk .Auth AUTH_RSAPUBLICKEY 0 (pubkey ++ [0]) :: outs)
      else .error (.adbRequestFailed ("Received AUTH message with unsupported type".toList))
    | .Clse =>
      match script with
      | [] => .error .timeout
      | n :: rest => auth_handshake sign pubkey n rest
    | .Okay =>
      match script with
      | [] => .error .timeout
      | n :: rest => auth_handshake sign pubkey n rest
    | .Wrte =>
      match script with
      | [] => .error .timeout
      | n :: rest => auth_handshake sign pubkey n rest
    | .Open => .error (.wrongResponseReceived .Open .Cnxn)
    | .Sync => .error (.wrongResponseReceived .Sync .Cnxn)

/-- The optional stream identifiers held by `ADBMessageDevice`
(`local_id`, `remote_id`). -/
structure StreamIds where
  local_id : Option Nat
  remote_id : Option Nat
deriving DecidableEq, Repr

/-- Build the OKAY acknowledgement `OKAY arg0=local_id arg1=remote_id`;
fails like `get_local_id` / `get_remote_id` when no stream is open. -/
def ackOkay (ids : StreamIds) : Except DevErr AMsg :=
  match ids.local_id, ids.remote_id with
  | some l, some r => .ok (AMsg.mk .Okay l r [])
  | none, _ => .error (.adbRequestFailed ("connection not opened, no local id".toList))
  | _, none => .error (.adbRequestFailed ("connection not opened, no remote id".toList))

/-- The read loop of `send_and_expect_okay`: read messages until an OKAY
arrives (returned together with the acknowledgements written on the way
and the unread remainder of the script).  Inbound WRTE is acknowledged
with an OKAY to the peer, inbound CLSE is ignored, any other command is a
`WrongResponseReceived` error. -/
def expect_okay_loop (ids : StreamIds) (outs : List AMsg) :
    List AMsg → Except DevErr (AMsg × List AMsg × List AMsg)
  | [] => .error .readEof
  | response :: rest =>
    match response.cmd with
    | .Okay => .ok (response, outs, rest)
    | .Wrte =>
      match ackOkay ids with
      | .error e => .error e
      | .ok ack => expect_okay_loop ids (outs ++ [ack]) rest
    | .Clse => expect_okay_loop ids outs rest
    | c => .error (.wrongResponseReceived c .Okay)

/-- `send_and_expect_okay`: write `message`, then wait for an OKAY. -/
def send_and_expect_okay (ids : StreamIds) (message : AMsg) (script : List AMsg) :
    Except DevErr (AMsg × List AMsg × List AMsg) :=
  expect_okay_loop ids [message] script

/-- `recv_and_reply_okay`: read one message; acknowledge WRTE and CLSE
with an OKAY to the peer; other commands are passed through. -/
def recv_and_reply_okay (ids : StreamIds) (script : List AMsg) :
    Except DevErr (AMsg × List AMsg × List AMsg) :=
  match script with
  | [] => .error .readEof
  | m :: rest =>
    match m.cmd with
    | .Wrte => (ackOkay ids).map (fun ack => (m, [ack], rest))
    | .Clse => (ackOkay ids).map (fun ack => (m, [ack], rest))
    | _ => .ok (m, [], rest)

/-- `open_session`: write `OPEN arg0=local_id arg1=0 payload=data` with a
randomly chosen local id, read one packet, and record
`local_id := response.arg1`, `remote_id := response.arg0` from it.
Returns the response, the recorded ids and the written messages. -/
def open_session (rngLocal : Nat) (data : List Nat) (script : List AMsg) :
    Except DevErr (AMsg × StreamIds × List AMsg) :=
  match script with
  | [] => .error .readEof
  | response :: _ =>
    .ok (response, StreamIds.mk (some response.arg1) (some response.arg0),
         [AMsg.mk .Open rngLocal 0 data])

/-- Little-endian encoding of a u32 as four bytes. -/
def u32le (n : Nat) : List Nat :=
  [n % 256, n / 256 % 256, n / 65536 % 256, n / 16777216 % 256]

/-- Modelled from the spec: the sync-frame ids of `MessageSubcommand`
(§3/§6: 4 ASCII bytes read as a u32 little-endian).  `DATA`. -/
def DATA_ID : Nat := 0x41544144

/-- Modelled from the spec: sync-frame id `DONE`. -/
def DONE_ID : Nat := 0x454e4f44

/-- Modelled from the spec: sync-frame id `FAIL`. -/
def FAIL_ID : Nat := 0x4c494146

/-- Modelled from the spec: sync-frame id `STAT`. -/
def STAT_ID : Nat := 0x54415453

/-- Modelled from the spec: sync-frame id `QUIT`. -/
def QUIT_ID : Nat := 0x54495551

/-- Modelled from the spec: the 8-byte sync frame header
`id: u32 LE, arg: u32 LE` (the bincode little-endian serialization of
`MessageSubcommand::…​.with_arg(arg)`). -/
def syncFrame (id arg : Nat) : List Nat :=
  u32le id ++ u32le arg

/-- The unread remainder returned by a successful `expect_okay_loop` is
strictly shorter than the script it consumed (the OKAY was consumed). -/
theorem expect_okay_loop_rest_lt (ids : StreamIds) :
    ∀ (script outs : List AMsg) (r : AMsg) (o rest : List AMsg),
      expect_okay_loop ids outs script = .ok (r, o, rest) → rest.length < script.length := by
  intro script
  induction script with
  | nil => intro outs r o rest h; simp [expect_okay_loop] at h
  | cons response tail ih =>
    intro outs r o rest h
    rw [expect_okay_loop] at h
    cases hc : response.cmd <;> rw [hc] at h
    · exact absurd h (by simp)
    · exact absurd h (by simp)
    · exact absurd h (by simp)
    · simp at h
      obtain ⟨h1, h2, h3⟩ := h
      subst h3
      simp [Nat.lt_succ_iff]
    · exact Nat.lt_trans (ih outs r o rest h) (Nat.lt_succ_self _)
    · cases hack : ackOkay ids <;> rw [hack] at h
      · exact absurd h (by simp)
      · exact Nat.lt_trans (ih _ r o rest h) (Nat.lt_succ_self _)
    · exact absurd h (by simp)

/-- A successful `recv_and_reply_okay` consumes exactly one message. -/
theorem recv_and_reply_okay_rest (ids : StreamIds) :
    ∀ (script : List AMsg) (m : AMsg) (o rest : List AMsg),
      recv_and_reply_okay ids script = .ok (m, o, rest) → rest.length + 1 = script.length := by
  intro script m o rest h
  cases script with
  | nil => simp [recv_and_reply_okay] at h
  | cons x tail =>
    rw [recv_and_reply_okay] at h
    cases hc : x.cmd <;> rw [hc] at h <;>
      first
      | (simp at h; obtain ⟨-, -, h3⟩ := h; subst h3; rfl)
      | (cases hack : ackOkay ids <;> rw [hack] at h <;> simp [Except.map] at h
         obtain ⟨-, -, h3⟩ := h
         subst h3
         rfl)

/-- The chunked upload loop of the device-level `push_file`: for each
remaining chunk, write a WRTE carrying a `DATA` sync frame and wait for
OKAY.  When the chunks are exhausted, write `DONE arg=0`, wait for OKAY,
then read one more message and acknowledge it: WRTE or CLSE completes the
push (the payload is not inspected), OKAY repeats the DONE exchange, any
other command is an `ADBRequestFailed` error. -/
def push_file_loop (ids : StreamIds) (lid rid : Nat) :
    List (List Nat) → List AMsg → List AMsg → Except DevErr (List AMsg)
  | c :: cs, script, outs =>
    match h : send_and_expect_okay ids (AMsg.mk .Wrte lid rid (syncFrame DATA_ID c.length ++ c)) script with
    | .error e => .error e
    | .ok (_, sent, rest) => push_file_loop ids lid rid cs rest (outs ++ sent)
  | [], script, outs =>
    match h : send_and_expect_okay ids (AMsg.mk .Wrte lid rid (syncFrame DONE_ID 0)) script with
    | .error e => .error e
    | .ok (_, sent, rest) =>
      match h2 : recv_and_reply_okay ids rest with
      | .error e => .error e
      | .ok (received, acks, rest2) =>
        match received.cmd with
        | .Wrte => .ok (outs ++ sent ++ acks)
        | .Clse => .ok (outs ++ sent ++ acks)
        | .Okay => push_file_loop ids lid rid [] rest2 (outs ++ sent ++ acks)
        | _ => .error (.adbRequestFailed ("Wrong command received".toList))
termination_by chunks script => (chunks.length, script.length)
decreasing_by
  · exact Prod.Lex.left _ _ (Nat.lt_succ_self _)
  · exact Prod.Lex.right _
      (Nat.lt_of_lt_of_le
        (Nat.lt_of_succ_le (Nat.le_of_eq (recv_and_reply_okay_rest ids rest received acks rest2 h2)))
        (Nat.le_of_lt (expect_okay_loop_rest_lt ids script _ _ _ rest h)))

/-- The device-level `push_file` of `ADBMessageDevice`: read the first
chunk of the file (possibly empty), send it as a `DATA` frame, then run
the upload loop over the remaining chunks.  The file's content is
modelled as the list of chunks its reader yields. -/
def dev_push_file (ids : StreamIds) (lid rid : Nat) (chunks : List (List Nat))
    (script : List AMsg) : Except DevErr (List AMsg) :=
  let c0 := chunks.headD []
  match send_and_expect_okay ids (AMsg.mk .Wrte lid rid (syncFrame DATA_ID c0.length ++ c0)) script with
  | .error e => .error e
  | .ok (_, sent, rest) => push_file_loop ids lid rid chunks.tail rest sent

/-! ### Theorems about the message layer (claims C1, C2, C3, C9) -/

/-- Claim C1 counterexample: in the token–reject–token scenario (device
sends AUTH TOKEN, rejects the signature, sends AUTH TOKEN again, then
CNXN) the implementation answers the second TOKEN with another
AUTH/SIGNATURE, never with AUTH/RSAPUBLICKEY, so the claimed
signature-then-public-key retry sequence does not happen. -/
theorem auth_handshake_c1_counterexample :
    auth_handshake (fun p => p) [9] (AMsg.mk .Auth 1 0 [5])
        [AMsg.mk .Auth 1 0 [6], AMsg.mk .Cnxn 0 0 []]
      = .ok [AMsg.mk .Auth 2 0 [5], AMsg.mk .Auth 2 0 [6]]
    ∧ ([AMsg.mk .Auth 2 0 [5], AMsg.mk .Auth 2 0 [6]].all
        (fun m => m.arg0 != AUTH_RSAPUBLICKEY)) = true :=
  ⟨rfl, rfl⟩

/-- Claim C1 (amended): the implementation replies AUTH/SIGNATURE to
every AUTH TOKEN challenge — also to a second TOKEN sent after the device
rejected the first signature — and sends AUTH/RSAPUBLICKEY (the
NUL-terminated public-key blob) only in reply to an AUTH packet with
arg0 = RSAPUBLICKEY; CNXN then completes the handshake. -/
theorem auth_handshake_c1_amended (sign : List Nat → List Nat) (pubkey : List Nat)
    (t1 t2 banner req : List Nat) (a b : Nat) :
    auth_handshake sign pubkey (AMsg.mk .Auth AUTH_TOKEN a t1)
        [AMsg.mk .Auth AUTH_TOKEN b t2, AMsg.mk .Cnxn 0 0 banner]
      = .ok [AMsg.mk .Auth AUTH_SIGNATURE 0 (sign t1),
             AMsg.mk .Auth AUTH_SIGNATURE 0 (sign t2)]
    ∧ auth_handshake sign pubkey (AMsg.mk .Auth AUTH_TOKEN a t1)
        [AMsg.mk .Auth AUTH_RSAPUBLICKEY b req, AMsg.mk .Cnxn 0 0 banner]
      = .ok [AMsg.mk .Auth AUTH_SIGNATURE 0 (sign t1),
             AMsg.mk .Auth AUTH_RSAPUBLICKEY 0 (pubkey ++ [0])] := by
  constructor
  · simp [auth_handshake, AUTH_TOKEN, AUTH_RSAPUBLICKEY, Except.map]
  · simp [auth_handshake, AUTH_TOKEN, AUTH_RSAPUBLICKEY, Except.map]

/-- Claim C3 counterexample: when the device answers OPEN with a CLSE
packet, `open_session` does not fail with `StreamRefused`; it succeeds
and records the CLSE packet's `arg1`/`arg0` as the stream identifiers. -/
theorem open_session_c3_counterexample :
    open_session 9 [115] [AMsg.mk .Clse 5 7 []]
      = .ok (AMsg.mk .Clse 5 7 [], StreamIds.mk (some 7) (some 5),
             [AMsg.mk .Open 9 0 [115]]) :=
  rfl

/-- Claim C3 (amended): after sending OPEN, `open_session` reads one
packet and unconditionally records `(local_id, remote_id) :=
(arg1, arg0)` of that packet — whether it is OKAY, CLSE or anything
else — and returns it; a CLSE answer is not detected and no
`StreamRefused` error exists on this path. -/
theorem open_session_c3_amended (rngLocal : Nat) (data : List Nat)
    (response : AMsg) (rest : List AMsg) :
    open_session rngLocal data (response :: rest)
      = .ok (response, StreamIds.mk (some response.arg1) (some response.arg0),
             [AMsg.mk .Open rngLocal 0 data]) :=
  rfl

/-- Helper for C9: reading through a run of inbound WRTE/CLSE messages,
`expect_okay_loop` acknowledges each WRTE with `OKAY arg0=local_id
arg1=remote_id` and drops each CLSE, leaving the rest of the script. -/
theorem expect_okay_loop_noise (l r : Nat) (noise : List AMsg)
    (h : ∀ m ∈ noise, m.cmd = .Wrte ∨ m.cmd = .Clse) (outs tail : List AMsg) :
    expect_okay_loop (StreamIds.mk (some l) (some r)) outs (noise ++ tail) =
      expect_okay_loop (StreamIds.mk (some l) (some r))
        (outs ++ noise.filterMap
          (fun m => if m.cmd = .Wrte then some (AMsg.mk .Okay l r []) else none)) tail := by
  induction noise generalizing outs with
  | nil => simp
  | cons x xs ih =>
    rcases h x (by simp) with hw | hc
    · rw [List.cons_append, expect_okay_loop, hw]
      simp only [ackOkay]
      rw [ih (fun m hm => h m (by simp [hm]))]
      simp [hw]
    · rw [List.cons_append, expect_okay_loop, hc]
      rw [ih (fun m hm => h m (by simp [hm]))]
      simp [hc]

/-- Claim C9: while waiting for the OKAY that acknowledges a sent WRTE,
the stream layer acknowledges every inbound WRTE with an OKAY addressed
to the peer (arg0 = local_id, arg1 = remote_id), tolerates inbound CLSE
by continuing to wait, returns at the first OKAY, and fails with a
wrong-response error on any other command. -/
theorem send_and_expect_okay_c9 (l r : Nat) (message : AMsg) (noise : List AMsg)
    (hn : ∀ m ∈ noise, m.cmd = .Wrte ∨ m.cmd = .Clse) (next : AMsg) (rest : List AMsg) :
    (next.cmd = .Okay →
      send_and_expect_okay (StreamIds.mk (some l) (some r)) message (noise ++ next :: rest)
        = .ok (next,
               message :: noise.filterMap
                 (fun m => if m.cmd = .Wrte then some (AMsg.mk .Okay l r []) else none),
               rest))
    ∧ (next.cmd ≠ .Okay → next.cmd ≠ .Wrte → next.cmd ≠ .Clse →
      send_and_expect_okay (StreamIds.mk (some l) (some r)) message (noise ++ next :: rest)
        = .error (.wrongResponseReceived next.cmd .Okay)) := by
  rw [send_and_expect_okay, expect_okay_loop_noise l r noise hn [message] (next :: rest)]
  constructor
  · intro hok
    rw [expect_okay_loop, hok]
    simp
  · intro hnok hnw hnc
    rw [expect_okay_loop]
    cases hc : next.cmd
    · rfl
    · rfl
    · rfl
    · exact absurd hc hnok
    · exact absurd hc hnc
    · exact absurd hc hnw
    · rfl

/-- Claim C9 witness: a concrete run with one interleaved WRTE and one
CLSE before the OKAY. -/
theorem send_and_expect_okay_c9_witness :
    (∀ m ∈ [AMsg.mk .Wrte 5 6 [9], AMsg.mk .Clse 5 6 []],
        m.cmd = MCmd.Wrte ∨ m.cmd = MCmd.Clse)
    ∧ send_and_expect_okay (StreamIds.mk (some 1) (some 2)) (AMsg.mk .Wrte 1 2 [7])
        ([AMsg.mk .Wrte 5 6 [9], AMsg.mk .Clse 5 6 []] ++ AMsg.mk .Okay 2 1 [] :: [])
      = .ok (AMsg.mk .Okay 2 1 [], [AMsg.mk .Wrte 1 2 [7], AMsg.mk .Okay 1 2 []], []) :=
  ⟨by decide,
   (send_and_expect_okay_c9 1 2 (AMsg.mk .Wrte 1 2 [7])
     [AMsg.mk .Wrte 5 6 [9], AMsg.mk .Clse 5 6 []] (by decide)
     (AMsg.mk .Okay 2 1 []) []).1 rfl⟩

/-- Claim C2 counterexample: a SEND whose DONE frame the device answers
with a WRTE carrying a `FAIL` sync frame is treated as success: the push
returns Ok, so the device-reported failure is not surfaced and the sync
is not aborted. -/
theorem push_file_c2_counterexample :
    dev_push_file (StreamIds.mk (some 1) (some 2)) 1 2 [[7]]
        [AMsg.mk .Okay 2 1 [], AMsg.mk .Okay 2 1 [],
         AMsg.mk .Wrte 2 1 (syncFrame FAIL_ID 3 ++ [101, 114, 114])]
      = .ok [AMsg.mk .Wrte 1 2 (syncFrame DATA_ID 1 ++ [7]),
             AMsg.mk .Wrte 1 2 (syncFrame DONE_ID 0),
             AMsg.mk .Okay 1 2 []] := by
  have e1 : send_and_expect_okay (StreamIds.mk (some 1) (some 2))
      (AMsg.mk .Wrte 1 2 (syncFrame DATA_ID 1 ++ [7]))
      [AMsg.mk .Okay 2 1 [], AMsg.mk .Okay 2 1 [],
       AMsg.mk .Wrte 2 1 (syncFrame FAIL_ID 3 ++ [101, 114, 114])]
      = .ok (AMsg.mk .Okay 2 1 [], [AMsg.mk .Wrte 1 2 (syncFrame DATA_ID 1 ++ [7])],
             [AMsg.mk .Okay 2 1 [],
              AMsg.mk .Wrte 2 1 (syncFrame FAIL_ID 3 ++ [101, 114, 114])]) := rfl
  have e2 : send_and_expect_okay (StreamIds.mk (some 1) (some 2))
      (AMsg.mk .Wrte 1 2 (syncFrame DONE_ID 0))
      [AMsg.mk .Okay 2 1 [], AMsg.mk .Wrte 2 1 (syncFrame FAIL_ID 3 ++ [101, 114, 114])]
      = .ok (AMsg.mk .Okay 2 1 [], [AMsg.mk .Wrte 1 2 (syncFrame DONE_ID 0)],
             [AMsg.mk .Wrte 2 1 (syncFrame FAIL_ID 3 ++ [101, 114, 114])]) := rfl
  have e3 : recv_and_reply_okay (StreamIds.mk (some 1) (some 2))
      [AMsg.mk .Wrte 2 1 (syncFrame FAIL_ID 3 ++ [101, 114, 114])]
      = .ok (AMsg.mk .Wrte 2 1 (syncFrame FAIL_ID 3 ++ [101, 114, 114]),
             [AMsg.mk .Okay 1 2 []], []) := rfl
  rw [dev_push_file]
  simp only [List.headD, List.tail, List.length_cons, List.length_nil]
  rw [e1]
  dsimp only
  rw [push_file_loop.eq_def]
  dsimp only
  rw [e2]
  dsimp only
  rw [e3]
  dsimp only
  simp

/-- Claim C2 (amended): after the DONE frame the implementation waits for
an OKAY, then reads one more message and acknowledges it; a WRTE or CLSE
answer — with any payload whatsoever, the `FAIL`/`OKAY` sync frame inside
is never inspected — completes the push successfully, and any command
other than OKAY, WRTE or CLSE fails with `ADBRequestFailed`. -/
theorem push_file_c2_amended (l r lid rid : Nat) (c : List Nat) (o1 o2 reply : AMsg)
    (h1 : o1.cmd = .Okay) (h2 : o2.cmd = .Okay) :
    ((reply.cmd = .Wrte ∨ reply.cmd = .Clse) →
      dev_push_file (StreamIds.mk (some l) (some r)) lid rid [c] [o1, o2, reply]
        = .ok [AMsg.mk .Wrte lid rid (syncFrame DATA_ID c.length ++ c),
               AMsg.mk .Wrte lid rid (syncFrame DONE_ID 0),
               AMsg.mk .Okay l r []])
    ∧ (reply.cmd ≠ .Okay → reply.cmd ≠ .Wrte → reply.cmd ≠ .Clse →
      dev_push_file (StreamIds.mk (some l) (some r)) lid rid [c] [o1, o2, reply]
        = .error (.adbRequestFailed ("Wrong command received".toList))) := by
  have e1 : send_and_expect_okay (StreamIds.mk (some l) (some r))
      (AMsg.mk .Wrte lid rid (syncFrame DATA_ID c.length ++ c)) [o1, o2, reply]
      = .ok (o1, [AMsg.mk .Wrte lid rid (syncFrame DATA_ID c.length ++ c)], [o2, reply]) := by
    rw [send_and_expect_okay, expect_okay_loop, h1]
  have e2 : send_and_expect_okay (StreamIds.mk (some l) (some r))
      (AMsg.mk .Wrte lid rid (syncFrame DONE_ID 0)) [o2, reply]
      = .ok (o2, [AMsg.mk .Wrte lid rid (syncFrame DONE_ID 0)], [reply]) := by
    rw [send_and_expect_okay, expect_okay_loop, h2]
  constructor
  · intro hwc
    have e3 : recv_and_reply_okay (StreamIds.mk (some l) (some r)) [reply]
        = .ok (reply, [AMsg.mk .Okay l r []], []) := by
      rcases hwc with hw | hc
      · rw [recv_and_reply_okay, hw]; rfl
      · rw [recv_and_reply_okay, hc]; rfl
    rw [dev_push_file]
    simp only [List.headD, List.tail]
    rw [e1]
    dsimp only
    rw [push_file_loop.eq_def]
    dsimp only
    rw [e2]
    dsimp only
    rw [e3]
    dsimp only
    rcases hwc with hw | hc
    · rw [hw]; simp
    · rw [hc]; simp
  · intro hnok hnw hnc
    have e3 : recv_and_reply_okay (StreamIds.mk (some l) (some r)) [reply]
        = .ok (reply, [], []) := by
      rw [recv_and_reply_okay]
      cases hc : reply.cmd
      · rfl
      · rfl
      · rfl
      · exact absurd hc hnok
      · exact absurd hc hnc
      · exact absurd hc hnw
      · rfl
    rw [dev_push_file]
    simp only [List.headD, List.tail]
    rw [e1]
    dsimp only
    rw [push_file_loop.eq_def]
    dsimp only
    rw [e2]
    dsimp only
    rw [e3]
    dsimp only
    cases hc : reply.cmd
    · rfl
    · rfl
    · rfl
    · exact absurd hc hnok
    · exact absurd hc hnc
    · exact absurd hc hnw
    · rfl

/-- Claim C2 amended witness: a concrete push whose DONE exchange the
device closes with CLSE still succeeds. -/
theorem push_file_c2_amended_witness :
    ((AMsg.mk .Clse 2 1 []).cmd = MCmd.Wrte ∨ (AMsg.mk .Clse 2 1 []).cmd = MCmd.Clse)
    ∧ dev_push_file (StreamIds.mk (some 1) (some 2)) 1 2 [[7]]
        [AMsg.mk .Okay 2 1 [], AMsg.mk .Okay 2 1 [], AMsg.mk .Clse 2 1 []]
      = .ok [AMsg.mk .Wrte 1 2 (syncFrame DATA_ID 1 ++ [7]),
             AMsg.mk .Wrte 1 2 (syncFrame DONE_ID 0),
             AMsg.mk .Okay 1 2 []] :=
  ⟨Or.inr rfl,
    (push_file_c2_amended 1 2 1 2 [7] (AMsg.mk .Okay 2 1 []) (AMsg.mk .Okay 2 1 [])
      (AMsg.mk .Clse 2 1 []) rfl rfl).1 (Or.inr rfl)⟩

/-! ## Part 2: the sync driver of `src-tauri/src/lib.rs`.

Strings are modelled as `List Char`; paths on the device side are such
lists. -/

/-- The Unicode White_Space property, as used by Rust's `str::trim`. -/
def rustIsWhitespace (c : Char) : Bool :=
  [' ', '\t', '\n', '\u000B', '\u000C', '\r', '\u0085', '\u00A0', '\u1680',
   '\u2000', '\u2001', '\u2002', '\u2003', '\u2004', '\u2005', '\u2006', '\u2007',
   '\u2008', '\u2009', '\u200A', '\u2028', '\u2029', '\u202F', '\u205F',
   '\u3000'].contains c

/-- Rust `str::trim`: drop whitespace from both ends. -/
def trimChars (l : List Char) : List Char :=
  ((l.dropWhile rustIsWhitespace).reverse.dropWhile rustIsWhitespace).reverse

/-- Rust `str::split(sep)` on a single-character pattern: the list of
(possibly empty) pieces between occurrences of `sep`. -/
def splitChar (sep : Char) : List Char → List (List Char)
  | [] => [[]]
  | c :: cs =>
    match splitChar sep cs with
    | [] => [[]]
    | p :: ps => if c = sep then [] :: p :: ps else (c :: p) :: ps

/-- Rust `Vec::join(sep)` for a single-character separator. -/
def joinSep (sep : Char) : List (List Char) → List Char
  | [] => []
  | [p] => p
  | p :: q :: rest => p ++ sep :: joinSep sep (q :: rest)

/-- One step of the segment loop of `normalize_remote_path`: empty and
`.` segments are dropped, `..` pops the previously collected segment
(`Vec::pop`), anything else is pushed. -/
def collectPartsStep (acc : List (List Char)) (seg : List Char) : List (List Char) :=
  if seg = [] ∨ seg = ['.'] then acc
  else if seg = ['.', '.'] then acc.dropLast
  else acc ++ [seg]

/-- The segment loop of `normalize_remote_path` over all pieces. -/
def collectParts (segs : List (List Char)) : List (List Char) :=
  segs.foldl collectPartsStep []

/-- A path segment that the normalize loop pushes: non-empty and
neither `.` nor `..`. -/
def goodSeg (s : List Char) : Prop := s ≠ [] ∧ s ≠ ['.'] ∧ s ≠ ['.', '.']

/-- The error type `SyncError` of the sync driver (USB variants omitted:
nothing modelled here produces them). -/
inductive SyncErr where
  | invalidLocalPath (msg : List Char)
  | invalidRemotePath (msg : List Char)
  | adb (e : DevErr)
  | io
deriving DecidableEq, Repr

/-- `normalize_remote_path`: trim the input, reject the empty result,
replace `\` by `/`, split on `/`, run the segment loop, and rebuild the
path with a leading `/` (an empty segment list becomes `/`). -/
def normalize_remote_path (path : List Char) : Except SyncErr (List Char) :=
  let trimmed := trimChars path
  if trimmed = [] then
    .error (.invalidRemotePath ("Remote path cannot be empty".toList))
  else
    let sanitized := trimmed.map (fun c => if c = '\\' then '/' else c)
    let parts := collectParts (splitChar '/' sanitized)
    if parts = [] then .ok ['/']
    else .ok ('/' :: joinSep '/' parts)

/-- Rust `str::trim_end_matches(c)`. -/
def trimEndMatches (c : Char) (l : List Char) : List Char :=
  (l.reverse.dropWhile (fun x => x = c)).reverse

/-- Rust `str::trim_matches(c)`. -/
def trimMatches (c : Char) (l : List Char) : List Char :=
  ((l.dropWhile (fun x => x = c)).reverse.dropWhile (fun x => x = c)).reverse

/-- The root path `/`. -/
def rootPath : List Char := ['/']

/-- `normalize_remote_dir_path`: `/` stays `/`, anything else loses its
trailing slashes. -/
def normalize_remote_dir_path (path : List Char) : List Char :=
  if path = rootPath then rootPath else trimEndMatches '/' path

/-- The non-empty `/`-separated segments of a path (shared by
`directory_depth` and the parent-directory relation). -/
def dirSegments (path : List Char) : List (List Char) :=
  (splitChar '/' (trimMatches '/' path)).filter (fun s => !s.isEmpty)

/-- `directory_depth`: the number of non-empty `/`-separated segments. -/
def directory_depth (path : List Char) : Nat :=
  (dirSegments path).length

/-- Lexicographic order on `List Char` (Rust's `str::cmp`, `≤` form). -/
def lexLe : List Char → List Char → Bool
  | [], _ => true
  | _ :: _, [] => false
  | a :: as, b :: bs => if a < b then true else if b < a then false else lexLe as bs

/-- The comparator of `collect_remote_directories`' sort: by
`directory_depth`, ties broken by the string order. -/
def dirOrderLe (a b : List Char) : Bool :=
  decide (directory_depth a < directory_depth b) ||
    (decide (directory_depth a = directory_depth b) && lexLe a b)

/-- Insert into a sorted list (step of the embedded stable sort). -/
def insertBy (le : List Char → List Char → Bool) (x : List Char) :
    List (List Char) → List (List Char)
  | [] => [x]
  | y :: ys => if le x y then x :: y :: ys else y :: insertBy le x ys

/-- `Vec::sort_by` with the embedded comparator, as insertion sort: for
the total antisymmetric depth-then-string order the sorted result is
unique, so this agrees with Rust's stable sort. -/
def sortBy (le : List Char → List Char → Bool) : List (List Char) → List (List Char)
  | [] => []
  | x :: xs => insertBy le x (sortBy le xs)

/-- The final sort of `collect_remote_directories`. -/
def sortRemoteDirectories (dirs : List (List Char)) : List (List Char) :=
  sortBy dirOrderLe dirs

/-- `q` is the parent directory of `p`: `p` has at least one segment and
`q`'s segments are `p`'s without the last. -/
def isParentDirOf (q p : List Char) : Prop :=
  dirSegments p ≠ [] ∧ dirSegments q = (dirSegments p).dropLast

/-- The reply of a sync STAT (`AdbStatResponse`): mode, size, mtime. -/
structure AdbStatResponse where
  file_perm : Nat
  file_size : Nat
  mod_time : Nat
deriving DecidableEq, Repr

/-- The outcome of `ADBUSBDevice::stat` for one path: a stat structure,
an `ADBRequestFailed` with a device message, or some other transport
error. -/
inductive StatOutcome where
  | found (r : AdbStatResponse)
  | failed (msg : List Char)
  | transport
deriving DecidableEq, Repr

/-- The device, as the sync driver sees it: an oracle answering STAT
queries (mkdir and push are modelled as always succeeding). -/
abbrev StatOracle := List Char → StatOutcome

/-- A device operation issued by the sync driver: a STAT query, a
`mkdir -p` shell command or a file push. -/
inductive DevCmd where
  | statQ (path : List Char)
  | mkdirQ (path : List Char)
  | pushQ (path : List Char)
deriving DecidableEq, Repr

/-- The running `SyncStats` of a sync request. -/
structure SyncStats where
  files_synced : Nat := 0
  files_deleted : Nat := 0
  skipped_entries : Nat := 0
  directories_created : Nat := 0
  bytes_uploaded : Nat := 0
deriving DecidableEq, Repr

/-- Rust `str::to_ascii_lowercase` on one character. -/
def asciiLower (c : Char) : Char :=
  if 'A' ≤ c && c ≤ 'Z' then Char.ofNat (c.toNat + 32) else c

/-- Does `hay` start with `needle`? -/
def startsWithSeg : List Char → List Char → Bool
  | _, [] => true
  | [], _ :: _ => false
  | a :: as, b :: bs => a == b && startsWithSeg as bs

/-- Rust `str::contains` for a literal pattern: substring search. -/
def containsSeg : List Char → List Char → Bool
  | [], needle => startsWithSeg [] needle
  | c :: t, needle => startsWithSeg (c :: t) needle || containsSeg t needle

/-- `adb_missing_file`: does the lowercased device message contain one of
the five file-absent patterns? -/
def adb_missing_file (message : List Char) : Bool :=
  let lower := message.map asciiLower
  containsSeg lower ("no such file".toList)
    || containsSeg lower ("not found".toList)
    || containsSeg lower ("does not exist".toList)
    || containsSeg lower ("failed to lstat".toList)
    || containsSeg lower ("failed to stat".toList)

/-- `remote_metadata`: issue a STAT; a successful stat is `some`, an
`ADBRequestFailed` whose message matches `adb_missing_file` becomes
`none` (file absent), any other failure aborts.  The second component is
the list of device operations issued. -/
def remote_metadata (oracle : StatOracle) (remote_path : List Char) :
    Except SyncErr (Option AdbStatResponse) × List DevCmd :=
  (match oracle remote_path with
   | .found r => .ok (some r)
   | .failed msg =>
     if adb_missing_file msg then .ok none
     else .error (.adb (.adbRequestFailed msg))
   | .transport => .error (.adb .readEof),
   [.statQ remote_path])

/-- `file_is_unchanged`: absent remote file → changed; size mismatch →
changed; otherwise unchanged.  Only `file_size` is consulted. -/
def file_is_unchanged (oracle : StatOracle) (remote_path : List Char) (localLen : Nat) :
    Except SyncErr Bool × List DevCmd :=
  match remote_metadata oracle remote_path with
  | (.error e, tr) => (.error e, tr)
  | (.ok none, tr) => (.ok false, tr)
  | (.ok (some remote), tr) =>
    if remote.file_size ≠ localLen then (.ok false, tr) else (.ok true, tr)

/-- The driver-level `push_file` of `lib.rs`: skip when unchanged,
otherwise push (unless `dry_run`) and account the file in the stats —
the stats are updated in the dry run exactly as in the real run. -/
def drv_push_file (oracle : StatOracle) (remote_path : List Char) (localLen : Nat)
    (stats : SyncStats) (dry_run : Bool) : Except SyncErr SyncStats × List DevCmd :=
  match file_is_unchanged oracle remote_path localLen with
  | (.error e, tr) => (.error e, tr)
  | (.ok true, tr) => (.ok stats, tr)
  | (.ok false, tr) =>
    (.ok {stats with files_synced := stats.files_synced + 1,
                     bytes_uploaded := stats.bytes_uploaded + localLen},
     tr ++ if dry_run then [] else [.pushQ remote_path])

/-- A local filesystem entry: a file with a byte length, a directory
with its children in readdir order, or anything else (symlink, socket —
neither file nor directory). -/
inductive FsEntry where
  | file (name : List Char) (size : Nat)
  | dir (name : List Char) (entries : List FsEntry)
  | special (name : List Char)

/-- `should_skip_entry`: hidden entries, whose name starts with `.`. -/
def should_skip_entry : List Char → Bool
  | [] => false
  | c :: _ => c == '.'

/-- `build_remote_path`: join the normal components of the relative path
onto the remote root. -/
def build_remote_path (remote_root : List Char) (relative : List (List Char)) : List Char :=
  let pieces := relative.filter (fun s => !s.isEmpty)
  if pieces.isEmpty then remote_root
  else if remote_root = rootPath then '/' :: joinSep '/' pieces
  else trimEndMatches '/' remote_root ++ '/' :: joinSep '/' pieces

mutual

/-- `count_local_files` on one entry (hidden entries skipped, specials
not counted). -/
def countEntry : FsEntry → Nat
  | .file n _ => if should_skip_entry n then 0 else 1
  | .dir n entries => if should_skip_entry n then 0 else countList entries
  | .special _ => 0

/-- `count_local_files` over a directory listing. -/
def countList : List FsEntry → Nat
  | [] => 0
  | e :: rest => countEntry e + countList rest

end

/-- `HashSet::insert` on the modelled set: append when absent. -/
def insertUnique (l : List (List Char)) (x : List Char) : List (List Char) :=
  if l.contains x then l else l ++ [x]

mutual

/-- `collect_remote_directories_recursive` on one entry: record each
non-hidden directory's normalized remote path and recurse. -/
def collectDirsEntry (remote_root : List Char) (rel : List (List Char)) :
    FsEntry → List (List Char) → List (List Char)
  | .file _ _, acc => acc
  | .special _, acc => acc
  | .dir n entries, acc =>
    if should_skip_entry n then acc
    else
      collectDirsList remote_root (rel ++ [n]) entries
        (insertUnique acc (normalize_remote_dir_path (build_remote_path remote_root (rel ++ [n]))))

/-- `collect_remote_directories_recursive` over a directory listing. -/
def collectDirsList (remote_root : List Char) (rel : List (List Char)) :
    List FsEntry → List (List Char) → List (List Char)
  | [], acc => acc
  | e :: rest, acc =>
    collectDirsList remote_root rel rest (collectDirsEntry remote_root rel e acc)

end

/-- `collect_remote_directories`: the normalized remote root plus every
directory the walk will need, sorted by depth with the string order as
tie-break. -/
def collect_remote_directories (tree : List FsEntry) (remote_root : List Char) :
    List (List Char) :=
  sortRemoteDirectories
    (collectDirsList remote_root [] tree
      (insertUnique [] (normalize_remote_dir_path remote_root)))

/-- A progress event (`SyncProgressPayload`). -/
structure Event where
  processed_files : Nat
  total_files : Nat
  current_file : Option (List Char)
  dry_run : Bool
deriving DecidableEq, Repr

/-- The mutable walk state: the created-directories set, the stats and
the progress counter. -/
structure WalkCore where
  created : List (List Char)
  stats : SyncStats
  processed : Nat
deriving DecidableEq, Repr

/-- `ensure_remote_dir`: normalize; skip when already created; insert;
root is never issued to mkdir; otherwise count it (and issue `mkdir -p`
unless `dry_run`). -/
def ensure_remote_dir (remote_dir : List Char) (core : WalkCore) (dry_run : Bool) :
    WalkCore × List DevCmd :=
  let normalized := normalize_remote_dir_path remote_dir
  if core.created.contains normalized then (core, [])
  else
    let core1 : WalkCore := {core with created := core.created ++ [normalized]}
    if normalized = rootPath then (core1, [])
    else
      ({core1 with stats := {core1.stats with
          directories_created := core1.stats.directories_created + 1}},
       if dry_run then [] else [.mkdirQ normalized])

/-- The loop of `create_remote_directories`: dedup against the shared
set, never touch the root, account and report every other directory, and
issue mkdir only when a shell device was opened (`needs_device`) and not
in a dry run. -/
def create_remote_dirs_go (needs_device dry_run : Bool) (total : Nat) :
    List (List Char) → WalkCore → WalkCore × List Event × List DevCmd
  | [], core => (core, [], [])
  | d :: rest, core =>
    let normalized := normalize_remote_dir_path d
    if core.created.contains normalized then
      create_remote_dirs_go needs_device dry_run total rest core
    else
      let core1 : WalkCore := {core with created := core.created ++ [normalized]}
      if normalized = rootPath then
        create_remote_dirs_go needs_device dry_run total rest core1
      else
        let cmds : List DevCmd :=
          if needs_device && !dry_run then [.mkdirQ normalized] else []
        let core2 : WalkCore := {core1 with
          stats := {core1.stats with
            directories_created := core1.stats.directories_created + 1},
          processed := core1.processed + 1}
        let out := create_remote_dirs_go needs_device dry_run total rest core2
        (out.1, Event.mk core2.processed total (some normalized) dry_run :: out.2.1,
         cmds ++ out.2.2)

/-- `create_remote_directories`: open a shell device only when a
non-root directory must be created outside a dry run, then run the
loop. -/
def create_remote_directories (directories : List (List Char)) (dry_run : Bool)
    (total : Nat) (core : WalkCore) : WalkCore × List Event × List DevCmd :=
  let needs_device := !dry_run &&
    directories.any (fun d => !(normalize_remote_dir_path d == rootPath))
  create_remote_dirs_go needs_device dry_run total directories core

mutual

/-- `sync_directory` on one entry: hidden entries and specials count as
skipped; a directory is ensured remotely and recursed into; a file has
its parent ensured, is pushed (STAT-gated) and reported. -/
def syncEntry (oracle : StatOracle) (remote_root : List Char) (total : Nat) (dry_run : Bool)
    (rel : List (List Char)) : FsEntry → WalkCore →
    Except SyncErr (WalkCore × List Event × List DevCmd)
  | .file name size, core =>
    if should_skip_entry name then
      .ok ({core with stats := {core.stats with
            skipped_entries := core.stats.skipped_entries + 1}}, [], [])
    else
      let relp := rel ++ [name]
      let remote_file := build_remote_path remote_root relp
      let parent := build_remote_path remote_root relp.dropLast
      let ens := ensure_remote_dir parent core dry_run
      match drv_push_file oracle remote_file size ens.1.stats dry_run with
      | (.error e, _) => .error e
      | (.ok stats2, tr2) =>
        let core2 : WalkCore := {ens.1 with stats := stats2, processed := ens.1.processed + 1}
        .ok (core2, [Event.mk core2.processed total (some remote_file) dry_run],
             ens.2 ++ tr2)
  | .dir name entries, core =>
    if should_skip_entry name then
      .ok ({core with stats := {core.stats with
            skipped_entries := core.stats.skipped_entries + 1}}, [], [])
    else
      let relp := rel ++ [name]
      let remote_dir := build_remote_path remote_root relp
      let ens := ensure_remote_dir remote_dir core dry_run
      match syncList oracle remote_root total dry_run relp entries ens.1 with
      | .error e => .error e
      | .ok (core2, evs, tr2) => .ok (core2, evs, ens.2 ++ tr2)
  | .special _, core =>
    .ok ({core with stats := {core.stats with
          skipped_entries := core.stats.skipped_entries + 1}}, [], [])

/-- `sync_directory` over a directory listing in readdir order. -/
def syncList (oracle : StatOracle) (remote_root : List Char) (total : Nat) (dry_run : Bool)
    (rel : List (List Char)) : List FsEntry → WalkCore →
    Except SyncErr (WalkCore × List Event × List DevCmd)
  | [], core => .ok (core, [], [])
  | e :: rest, core =>
    match syncEntry oracle remote_root total dry_run rel e core with
    | .error err => .error err
    | .ok (c1, ev1, t1) =>
      match syncList oracle remote_root total dry_run rel rest c1 with
      | .error err => .error err
      | .ok (c2, ev2, t2) => .ok (c2, ev1 ++ ev2, t1 ++ t2)

end

/-- The `SyncSummary` fields the model tracks. -/
structure Summary where
  files_synced : Nat
  files_deleted : Nat
  skipped_entries : Nat
  directories_created : Nat
  bytes_uploaded : Nat
  remote_path : List Char
  dry_run : Bool
deriving DecidableEq, Repr

/-- `perform_sync`: normalize the remote root, count files and needed
directories, emit the initial progress event, create the directories,
ensure the root, walk the tree, and build the summary.  Returns the
summary, the progress events and the device operations issued. -/
def perform_sync (tree : List FsEntry) (device_path : List Char) (dry_run : Bool)
    (oracle : StatOracle) : Except SyncErr (Summary × List Event × List DevCmd) :=
  match normalize_remote_path device_path with
  | .error e => .error e
  | .ok remote_root =>
    let total_files := countList tree
    let remote_directories := collect_remote_directories tree remote_root
    let directories_to_create :=
      (remote_directories.filter (fun d => !(normalize_remote_dir_path d == rootPath))).length
    let total := total_files + directories_to_create
    let core0 : WalkCore := WalkCore.mk [] {} 0
    let cr := create_remote_directories remote_directories dry_run total core0
    let ens := ensure_remote_dir remote_root cr.1 dry_run
    match syncList oracle remote_root total dry_run [] tree ens.1 with
    | .error e => .error e
    | .ok (core3, evs3, tr3) =>
      .ok (Summary.mk core3.stats.files_synced core3.stats.files_deleted
             core3.stats.skipped_entries core3.stats.directories_created
             core3.stats.bytes_uploaded remote_root dry_run,
           Event.mk 0 total none dry_run :: (cr.2.1 ++ evs3), cr.2.2 ++ ens.2 ++ tr3)

/-- The device operations a dry run may issue: STAT queries only. -/
def keepDry : DevCmd → Bool
  | .statQ _ => true
  | .mkdirQ _ => false
  | .pushQ _ => false

/-- Mark a progress event as belonging to a dry run. -/
def evDry (ev : Event) : Event :=
  {ev with dry_run := true}

/-! ### Theorems about remote-path normalization (claim C6) -/

theorem splitChar_ne_nil (sep : Char) (l : List Char) : splitChar sep l ≠ [] := by
  cases l with
  | nil => simp [splitChar]
  | cons c cs =>
    rw [splitChar]
    cases h : splitChar sep cs with
    | nil => simp
    | cons p ps =>
      by_cases hc : c = sep <;> simp [hc]

theorem splitChar_no_sep (sep : Char) (l : List Char) :
    ∀ s ∈ splitChar sep l, sep ∉ s := by
  induction l with
  | nil => intro s hs; simp [splitChar] at hs; simp [hs]
  | cons c cs ih =>
    intro s hs
    rw [splitChar] at hs
    cases h : splitChar sep cs with
    | nil => exact absurd h (splitChar_ne_nil sep cs)
    | cons p ps =>
      rw [h] at hs
      by_cases hc : c = sep
      · simp [hc] at hs
        rcases hs with hs | hs | hs
        · simp [hs]
        · exact ih s (by rw [h]; simp [hs])
        · exact ih s (by rw [h]; simp [hs])
      · simp [hc] at hs
        rcases hs with hs | hs
        · subst hs
          intro hmem
          rcases List.mem_cons.mp hmem with h1 | h1
          · exact hc h1.symm
          · exact ih p (by rw [h]; simp) h1
        · exact ih s (by rw [h]; simp [hs])

theorem splitChar_subset (sep : Char) (l : List Char) :
    ∀ s ∈ splitChar sep l, ∀ c ∈ s, c ∈ l := by
  induction l with
  | nil => intro s hs; simp [splitChar] at hs; simp [hs]
  | cons c cs ih =>
    intro s hs d hd
    rw [splitChar] at hs
    cases h : splitChar sep cs with
    | nil => exact absurd h (splitChar_ne_nil sep cs)
    | cons p ps =>
      rw [h] at hs
      by_cases hc : c = sep
      · simp [hc] at hs
        rcases hs with hs | hs | hs
        · simp [hs] at hd
        · exact List.mem_cons_of_mem _ (ih s (by rw [h]; simp [hs]) d hd)
        · exact List.mem_cons_of_mem _ (ih s (by rw [h]; simp [hs]) d hd)
      · simp [hc] at hs
        rcases hs with hs | hs
        · subst hs
          rcases List.mem_cons.mp hd with h1 | h1
          · simp [h1]
          · exact List.mem_cons_of_mem _ (ih p (by rw [h]; simp) d h1)
        · exact List.mem_cons_of_mem _ (ih s (by rw [h]; simp [hs]) d hd)

theorem splitChar_sep_cons (sep : Char) (l : List Char) :
    splitChar sep (sep :: l) = [] :: splitChar sep l := by
  rw [splitChar]
  cases h : splitChar sep l with
  | nil => exact absurd h (splitChar_ne_nil sep l)
  | cons p ps => simp

theorem splitChar_of_no_sep (sep : Char) (p : List Char) (h : sep ∉ p) :
    splitChar sep p = [p] := by
  induction p with
  | nil => rfl
  | cons c cs ih =>
    rw [splitChar, ih (fun hm => h (List.mem_cons_of_mem _ hm))]
    have hc : ¬(c = sep) := fun he => h (by simp [he])
    simp [hc]

theorem splitChar_append_sep (sep : Char) (p rest : List Char) (h : sep ∉ p) :
    splitChar sep (p ++ sep :: rest) = p :: splitChar sep rest := by
  induction p with
  | nil => simp [splitChar_sep_cons]
  | cons c cs ih =>
    have hc : ¬(c = sep) := fun he => h (by simp [he])
    rw [List.cons_append, splitChar, ih (fun hm => h (List.mem_cons_of_mem _ hm))]
    simp [hc]

theorem splitChar_joinSep (sep : Char) (ps : List (List Char)) (hne : ps ≠ [])
    (h : ∀ p ∈ ps, sep ∉ p) : splitChar sep (joinSep sep ps) = ps := by
  induction ps with
  | nil => exact absurd rfl hne
  | cons p qs ih =>
    cases qs with
    | nil => exact splitChar_of_no_sep sep p (h p (by simp))
    | cons q rs =>
      rw [joinSep, splitChar_append_sep sep p _ (h p (by simp))]
      rw [ih (by simp) (fun x hx => h x (List.mem_cons_of_mem _ hx))]

theorem mem_joinSep (sep : Char) (ps : List (List Char)) (c : Char)
    (h : c ∈ joinSep sep ps) : c = sep ∨ ∃ p ∈ ps, c ∈ p := by
  induction ps with
  | nil => simp [joinSep] at h
  | cons p qs ih =>
    cases qs with
    | nil =>
      simp [joinSep] at h
      exact Or.inr ⟨p, by simp, h⟩
    | cons q rs =>
      rw [joinSep] at h
      rcases List.mem_append.mp h with h1 | h1
      · exact Or.inr ⟨p, by simp, h1⟩
      · rcases List.mem_cons.mp h1 with h2 | h2
        · exact Or.inl h2
        · rcases ih h2 with h3 | ⟨x, hx, hcx⟩
          · exact Or.inl h3
          · exact Or.inr ⟨x, List.mem_cons_of_mem _ hx, hcx⟩

theorem collectParts_go_of_good (segs : List (List Char)) (acc : List (List Char))
    (h : ∀ s ∈ segs, goodSeg s) : segs.foldl collectPartsStep acc = acc ++ segs := by
  induction segs generalizing acc with
  | nil => simp
  | cons s rest ih =>
    obtain ⟨h1, h2, h3⟩ := h s (by simp)
    rw [List.foldl_cons]
    rw [show collectPartsStep acc s = acc ++ [s] by
      simp [collectPartsStep, h1, h2, h3]]
    rw [ih _ (fun x hx => h x (List.mem_cons_of_mem _ hx))]
    simp

theorem collectParts_mem_go (segs : List (List Char)) (acc : List (List Char)) :
    ∀ s ∈ segs.foldl collectPartsStep acc, s ∈ acc ∨ (s ∈ segs ∧ goodSeg s) := by
  induction segs generalizing acc with
  | nil => intro s hs; exact Or.inl hs
  | cons x rest ih =>
    intro s hs
    rw [List.foldl_cons] at hs
    rcases ih (collectPartsStep acc x) s hs with h1 | ⟨h1, h2⟩
    · by_cases hx1 : x = [] ∨ x = ['.']
      · rw [collectPartsStep, if_pos hx1] at h1
        exact Or.inl h1
      · by_cases hx2 : x = ['.', '.']
        · rw [collectPartsStep, if_neg hx1, if_pos hx2] at h1
          exact Or.inl (List.dropLast_subset _ h1)
        · rw [collectPartsStep, if_neg hx1, if_neg hx2] at h1
          rcases List.mem_append.mp h1 with h3 | h3
          · exact Or.inl h3
          · rcases List.mem_singleton.mp h3 with h4
            subst h4
            push_neg at hx1
            exact Or.inr ⟨by simp, hx1.1, hx1.2, hx2⟩
    · exact Or.inr ⟨List.mem_cons_of_mem _ h1, h2⟩

theorem collectParts_mem (segs : List (List Char)) :
    ∀ s ∈ collectParts segs, s ∈ segs ∧ goodSeg s := by
  intro s hs
  rcases collectParts_mem_go segs [] s hs with h | h
  · simp at h
  · exact h

theorem trimChars_eq_self (l : List Char)
    (h1 : ∀ c, l.head? = some c → rustIsWhitespace c = false)
    (h2 : ∀ c, l.getLast? = some c → rustIsWhitespace c = false) :
    trimChars l = l := by
  rw [trimChars]
  cases l with
  | nil => rfl
  | cons a t =>
    have ha : ¬ (rustIsWhitespace a = true) := by simp [h1 a rfl]
    rw [List.dropWhile_cons_of_neg ha]
    cases hr : (a :: t).reverse with
    | nil => simp at hr
    | cons b rt =>
      have hb : (a :: t).getLast? = some b := by
        rw [List.getLast?_eq_head?_reverse, hr]
        rfl
      have hbw : ¬ (rustIsWhitespace b = true) := by simp [h2 b hb]
      rw [List.dropWhile_cons_of_neg hbw, ← hr, List.reverse_reverse]

theorem map_eq_self {f : Char → Char} (l : List Char) (h : ∀ c ∈ l, f c = c) :
    l.map f = l := by
  induction l with
  | nil => rfl
  | cons c cs ih =>
    rw [List.map_cons, h c (by simp), ih (fun x hx => h x (List.mem_cons_of_mem _ hx))]

theorem normalize_ok_shape (p r : List Char) (h : normalize_remote_path p = .ok r) :
    r = rootPath ∨
      ∃ parts, parts ≠ [] ∧ r = '/' :: joinSep '/' parts ∧
        ∀ s ∈ parts, goodSeg s ∧ '/' ∉ s ∧ '\\' ∉ s := by
  rw [normalize_remote_path] at h
  by_cases ht : trimChars p = []
  · rw [if_pos ht] at h
    exact absurd h (by simp)
  · rw [if_neg ht] at h
    set sanitized := (trimChars p).map (fun c => if c = '\\' then '/' else c) with hsan
    set parts := collectParts (splitChar '/' sanitized) with hparts
    by_cases hp : parts = []
    · rw [if_pos hp] at h
      simp at h
      exact Or.inl (by rw [← h]; rfl)
    · rw [if_neg hp] at h
      simp at h
      refine Or.inr ⟨parts, hp, by rw [← h], ?_⟩
      intro s hs
      obtain ⟨hmem, hgood⟩ := collectParts_mem _ s hs
      refine ⟨hgood, splitChar_no_sep '/' sanitized s hmem, ?_⟩
      intro hbs
      have hc := splitChar_subset '/' sanitized s hmem '\\' hbs
      rw [hsan] at hc
      rcases List.mem_map.mp hc with ⟨d, hd, hde⟩
      by_cases hdb : d = '\\'
      · rw [if_pos hdb] at hde
        exact absurd hde (by decide)
      · rw [if_neg hdb] at hde
        exact hdb (hde ▸ rfl)

theorem normalize_fixes (parts : List (List Char)) (hne : parts ≠ [])
    (hgood : ∀ s ∈ parts, goodSeg s ∧ '/' ∉ s ∧ '\\' ∉ s)
    (hws : ∀ c, ('/' :: joinSep '/' parts).getLast? = some c → rustIsWhitespace c = false) :
    normalize_remote_path ('/' :: joinSep '/' parts) = .ok ('/' :: joinSep '/' parts) := by
  set r := '/' :: joinSep '/' parts with hr
  have hnb : ∀ c ∈ r, c ≠ '\\' := by
    intro c hc
    rcases List.mem_cons.mp hc with h1 | h1
    · subst h1; decide
    · rcases mem_joinSep '/' parts c h1 with h2 | ⟨s, hs, hcs⟩
      · subst h2; decide
      · intro hb
        exact (hgood s hs).2.2 (hb ▸ hcs)
  have htrim : trimChars r = r := by
    apply trimChars_eq_self
    · intro c hc
      rw [hr] at hc
      simp at hc
      subst hc
      rfl
    · exact hws
  rw [normalize_remote_path, htrim, if_neg (by rw [hr]; simp)]
  have hmap : r.map (fun c => if c = '\\' then '/' else c) = r :=
    map_eq_self r (fun c hc => if_neg (hnb c hc))
  rw [hmap]
  show (let parts2 := collectParts (splitChar '/' r);
    if parts2 = [] then Except.ok ['/'] else Except.ok ('/' :: joinSep '/' parts2)) = Except.ok r
  have hsplit : splitChar '/' r = [] :: parts := by
    rw [hr, splitChar_sep_cons, splitChar_joinSep '/' parts hne (fun s hs => (hgood s hs).2.1)]
  have hcoll : collectParts ([] :: parts) = parts := by
    rw [collectParts, List.foldl_cons]
    rw [show collectPartsStep [] [] = [] from rfl]
    exact (collectParts_go_of_good parts [] (fun s hs => (hgood s hs).1)).trans (by simp)
  dsimp only
  rw [hsplit, hcoll, if_neg hne]

/-- Claim C6 (amended): `normalize("/") = "/"` and `normalize("")` fails
with `InvalidRemotePath`, and normalization is idempotent on every input
whose normalized form does not end in a whitespace character (the general
idempotence claim fails because `str::trim` strips trailing whitespace
that a segment kept in the first pass — see the counterexample). -/
theorem normalize_c6_amended :
    normalize_remote_path ("/".toList) = .ok ("/".toList)
    ∧ normalize_remote_path ([]) = .error (.invalidRemotePath ("Remote path cannot be empty".toList))
    ∧ ∀ p r, normalize_remote_path p = .ok r →
        (∀ c, r.getLast? = some c → rustIsWhitespace c = false) →
        normalize_remote_path r = .ok r := by
  refine ⟨rfl, rfl, ?_⟩
  intro p r h hws
  rcases normalize_ok_shape p r h with h1 | ⟨parts, hne, hre, hgood⟩
  · subst h1; rfl
  · subst hre
    exact normalize_fixes parts hne hgood hws

/-- Claim C6 counterexample: normalization is not idempotent on
`"a /"` — the first pass yields `"/a "` (the space survives inside the
segment), the second pass trims that trailing space and yields `"/a"`. -/
theorem normalize_c6_counterexample :
    normalize_remote_path ("a /".toList) = .ok ("/a ".toList)
    ∧ normalize_remote_path ("/a ".toList) = .ok ("/a".toList)
    ∧ ("/a".toList : List Char) ≠ "/a ".toList :=
  ⟨rfl, rfl, by decide⟩

/-- Claim C6 amended witness: a concrete successful re-normalization. -/
theorem normalize_c6_amended_witness :
    normalize_remote_path ("a/b/".toList) = .ok ("/a/b".toList)
    ∧ (∀ c, ("/a/b".toList : List Char).getLast? = some c → rustIsWhitespace c = false)
    ∧ normalize_remote_path ("/a/b".toList) = .ok ("/a/b".toList) :=
  ⟨rfl, fun c hc => by cases hc; rfl,
   normalize_c6_amended.2.2 ("a/b/".toList) ("/a/b".toList) rfl
     (fun c hc => by cases hc; rfl)⟩

/-! ### Theorems about the STAT skip decision (claims C4, C5) -/

/-- Claim C4: for every file the walker considers, a STAT is issued
first (the head of the issued-operations list is the STAT, whatever the
device answers); when the remote file exists and its STAT size equals
the local length, no SEND is issued and `files_synced` is unchanged;
when the sizes differ a SEND is issued; and size is the only comparator:
two STAT replies of equal size (any mode/mtime) give identical
behaviour. -/
theorem push_skip_c4 (p : List Char) (len : Nat) (st : SyncStats) (r : AdbStatResponse) :
    (∀ (oracle : StatOracle) (dry : Bool),
        (drv_push_file oracle p len st dry).2.head? = some (.statQ p))
    ∧ (r.file_size = len →
        drv_push_file (fun _ => .found r) p len st false = (.ok st, [.statQ p]))
    ∧ (r.file_size ≠ len →
        drv_push_file (fun _ => .found r) p len st false
          = (.ok {st with files_synced := st.files_synced + 1,
                          bytes_uploaded := st.bytes_uploaded + len},
             [.statQ p, .pushQ p]))
    ∧ (∀ (r2 : AdbStatResponse) (dry : Bool), r2.file_size = r.file_size →
        drv_push_file (fun _ => .found r2) p len st dry
          = drv_push_file (fun _ => .found r) p len st dry) := by
  refine ⟨?_, ?_, ?_, ?_⟩
  · intro oracle dry
    rw [drv_push_file, file_is_unchanged, remote_metadata]
    cases ho : oracle p with
    | found r2 =>
      by_cases hs : r2.file_size ≠ len <;> simp [hs]
    | failed msg =>
      by_cases hm : adb_missing_file msg <;> simp [hm]
    | transport => simp
  · intro hs
    rw [drv_push_file, file_is_unchanged, remote_metadata]
    simp [hs]
  · intro hs
    rw [drv_push_file, file_is_unchanged, remote_metadata]
    simp [hs]
  · intro r2 dry hs
    rw [drv_push_file, file_is_unchanged, remote_metadata,
        drv_push_file, file_is_unchanged, remote_metadata]
    simp only [hs]

/-- Claim C4 witness: a 100-byte file whose STAT reports size 100 is
skipped. -/
theorem push_skip_c4_witness :
    ((AdbStatResponse.mk 0x81a4 100 7).file_size = 100)
    ∧ drv_push_file (fun _ => .found (AdbStatResponse.mk 0x81a4 100 7))
        ("/d/f".toList) 100 {} false = (.ok {}, [.statQ ("/d/f".toList)]) :=
  ⟨rfl, (push_skip_c4 ("/d/f".toList) 100 {} (AdbStatResponse.mk 0x81a4 100 7)).2.1 rfl⟩

/-- Claim C5: a STAT failure whose device message contains, after ASCII
lowercasing, one of the five patterns is treated as file-absent — the
sync continues and the file is pushed — while a failure with any other
message aborts with the `ADBRequestFailed` error.  The first conjunct
pins `adb_missing_file` to exactly those five case-insensitive
substring tests. -/
theorem stat_failure_c5 (p : List Char) (msg : List Char) (len : Nat) (st : SyncStats) :
    (adb_missing_file msg =
      (containsSeg (msg.map asciiLower) ("no such file".toList)
        || containsSeg (msg.map asciiLower) ("not found".toList)
        || containsSeg (msg.map asciiLower) ("does not exist".toList)
        || containsSeg (msg.map asciiLower) ("failed to lstat".toList)
        || containsSeg (msg.map asciiLower) ("failed to stat".toList)))
    ∧ (adb_missing_file msg = true →
        drv_push_file (fun _ => .failed msg) p len st false
          = (.ok {st with files_synced := st.files_synced + 1,
                          bytes_uploaded := st.bytes_uploaded + len},
             [.statQ p, .pushQ p]))
    ∧ (adb_missing_file msg = false →
        drv_push_file (fun _ => .failed msg) p len st false
          = (.error (.adb (.adbRequestFailed msg)), [.statQ p])) := by
  refine ⟨rfl, ?_, ?_⟩
  · intro hm
    rw [drv_push_file, file_is_unchanged, remote_metadata]
    simp [hm]
  · intro hm
    rw [drv_push_file, file_is_unchanged, remote_metadata]
    simp [hm]

/-- Claim C5 witness: a mixed-case match pushes, a non-match aborts. -/
theorem stat_failure_c5_witness :
    adb_missing_file ("remote object does not EXIST on device".toList) = true
    ∧ adb_missing_file ("Permission denied".toList) = false
    ∧ drv_push_file (fun _ => .failed ("remote object does not EXIST on device".toList))
        ("/d/f".toList) 3 {} false
      = (.ok {files_synced := 1, bytes_uploaded := 3},
         [.statQ ("/d/f".toList), .pushQ ("/d/f".toList)])
    ∧ drv_push_file (fun _ => .failed ("Permission denied".toList)) ("/d/f".toList) 3 {} false
      = (.error (.adb (.adbRequestFailed ("Permission denied".toList))),
         [.statQ ("/d/f".toList)]) :=
  ⟨rfl, rfl,
   (stat_failure_c5 ("/d/f".toList) ("remote object does not EXIST on device".toList) 3 {}).2.1 rfl,
   (stat_failure_c5 ("/d/f".toList) ("Permission denied".toList) 3 {}).2.2 rfl⟩

/-! ### Theorems about the directory-creation order (claim C7) -/

theorem lexLe_total (a : List Char) : ∀ b, (lexLe a b || lexLe b a) = true := by
  induction a with
  | nil => intro b; simp [lexLe]
  | cons x xs ih =>
    intro b
    cases b with
    | nil => simp [lexLe]
    | cons y ys =>
      rw [lexLe, lexLe]
      rcases lt_trichotomy x y with h | h | h
      · simp [h, not_lt_of_gt h]
      · subst h
        simp [lt_irrefl, ih ys]
      · simp [h, not_lt_of_gt h]

theorem lexLe_trans (a : List Char) : ∀ b c, lexLe a b = true → lexLe b c = true →
    lexLe a c = true := by
  induction a with
  | nil => intro b c _ _; rfl
  | cons x xs ih =>
    intro b c h1 h2
    cases b with
    | nil => exact absurd h1 (by simp [lexLe])
    | cons y ys =>
      cases c with
      | nil => exact absurd h2 (by simp [lexLe])
      | cons z zs =>
        rw [lexLe] at h1 h2 ⊢
        rcases lt_trichotomy x y with hxy | hxy | hxy
        · rcases lt_trichotomy y z with hyz | hyz | hyz
          · simp [lt_trans hxy hyz]
          · subst hyz; simp [hxy]
          · rw [if_neg (not_lt_of_gt hyz), if_pos hyz] at h2
            exact absurd h2 (by simp)
        · subst hxy
          rcases lt_trichotomy x z with hyz | hyz | hyz
          · simp [hyz]
          · subst hyz
            rw [if_neg (lt_irrefl x), if_neg (lt_irrefl x)] at h1 h2 ⊢
            exact ih ys zs h1 h2
          · rw [if_neg (not_lt_of_gt hyz), if_pos hyz] at h2
            exact absurd h2 (by simp)
        · rw [if_neg (not_lt_of_gt hxy), if_pos hxy] at h1
          exact absurd h1 (by simp)

theorem dirOrderLe_trans (a b c : List Char) (h1 : dirOrderLe a b = true)
    (h2 : dirOrderLe b c = true) : dirOrderLe a c = true := by
  rw [dirOrderLe] at h1 h2 ⊢
  simp only [Bool.or_eq_true, Bool.and_eq_true, decide_eq_true_eq] at h1 h2 ⊢
  rcases h1 with h1 | ⟨h1e, h1l⟩
  · rcases h2 with h2 | ⟨h2e, _⟩
    · exact Or.inl (Nat.lt_trans h1 h2)
    · exact Or.inl (h2e ▸ h1)
  · rcases h2 with h2 | ⟨h2e, h2l⟩
    · exact Or.inl (h1e ▸ h2)
    · exact Or.inr ⟨h1e.trans h2e, lexLe_trans a b c h1l h2l⟩

theorem dirOrderLe_total (a b : List Char) : (dirOrderLe a b || dirOrderLe b a) = true := by
  rw [dirOrderLe, dirOrderLe]
  simp only [Bool.or_eq_true, Bool.and_eq_true, decide_eq_true_eq]
  rcases Nat.lt_trichotomy (directory_depth a) (directory_depth b) with h | h | h
  · exact Or.inl (Or.inl h)
  · rcases Bool.or_eq_true _ _ |>.mp (lexLe_total a b) with hl | hl
    · exact Or.inl (Or.inr ⟨h, hl⟩)
    · exact Or.inr (Or.inr ⟨h.symm, hl⟩)
  · exact Or.inr (Or.inl h)

theorem mem_insertBy (le : List Char → List Char → Bool) (x : List Char)
    (l : List (List Char)) (y : List Char) :
    y ∈ insertBy le x l ↔ y = x ∨ y ∈ l := by
  induction l with
  | nil => simp [insertBy]
  | cons z zs ih =>
    rw [insertBy]
    by_cases h : le x z = true
    · simp [h]
    · simp only [h]
      simp [ih]
      tauto

theorem pairwise_insertBy (le : List Char → List Char → Bool)
    (htot : ∀ a b, (le a b || le b a) = true)
    (htrans : ∀ a b c, le a b = true → le b c = true → le a c = true)
    (x : List Char) (l : List (List Char))
    (h : l.Pairwise (fun a b => le a b = true)) :
    (insertBy le x l).Pairwise (fun a b => le a b = true) := by
  induction l with
  | nil => simp [insertBy]
  | cons y ys ih =>
    rw [List.pairwise_cons] at h
    obtain ⟨hy, hys⟩ := h
    rw [insertBy]
    by_cases hxy : le x y = true
    · simp only [hxy, if_true]
      refine List.Pairwise.cons ?_ (List.Pairwise.cons hy hys)
      intro z hz
      rcases List.mem_cons.mp hz with h1 | h1
      · exact h1 ▸ hxy
      · exact htrans x y z hxy (hy z h1)
    · simp only [hxy]
      simp only [Bool.false_eq_true, if_false]
      have hyx : le y x = true := by
        rcases Bool.or_eq_true _ _ |>.mp (htot x y) with h1 | h1
        · exact absurd h1 hxy
        · exact h1
      refine List.Pairwise.cons ?_ (ih hys)
      intro z hz
      rcases (mem_insertBy le x ys z).mp hz with h1 | h1
      · exact h1 ▸ hyx
      · exact hy z h1

theorem pairwise_sortBy (le : List Char → List Char → Bool)
    (htot : ∀ a b, (le a b || le b a) = true)
    (htrans : ∀ a b c, le a b = true → le b c = true → le a c = true)
    (l : List (List Char)) :
    (sortBy le l).Pairwise (fun a b => le a b = true) := by
  induction l with
  | nil => exact List.Pairwise.nil
  | cons x xs ih => exact pairwise_insertBy le htot htrans x (sortBy le xs) ih

theorem sortRemoteDirectories_pairwise (dirs : List (List Char)) :
    (sortRemoteDirectories dirs).Pairwise (fun a b => dirOrderLe a b = true) :=
  pairwise_sortBy dirOrderLe dirOrderLe_total dirOrderLe_trans dirs

theorem dirOrderLe_depth (a b : List Char) (h : dirOrderLe a b = true) :
    directory_depth a ≤ directory_depth b := by
  rw [dirOrderLe] at h
  simp only [Bool.or_eq_true, Bool.and_eq_true, decide_eq_true_eq] at h
  rcases h with h | ⟨h, _⟩
  · exact Nat.le_of_lt h
  · exact Nat.le_of_eq h

theorem depth_parent_lt (q p : List Char) (h : isParentDirOf q p) :
    directory_depth q < directory_depth p := by
  obtain ⟨hne, hq⟩ := h
  rw [directory_depth, directory_depth, hq, List.length_dropLast]
  have hp : 0 < (dirSegments p).length := List.length_pos.mpr hne
  omega

/-- Claim C7: the directory-creation list produced before the walk is
sorted by depth — for all positions `i < j` the depth at `i` is at most
the depth at `j` — and no directory in the list precedes its own parent
directory. -/
theorem collect_dirs_c7 (tree : List FsEntry) (remote_root : List Char)
    (i j : Nat) (hi : i < (collect_remote_directories tree remote_root).length)
    (hj : j < (collect_remote_directories tree remote_root).length) (hij : i < j) :
    directory_depth ((collect_remote_directories tree remote_root).get ⟨i, hi⟩)
      ≤ directory_depth ((collect_remote_directories tree remote_root).get ⟨j, hj⟩)
    ∧ ¬ isParentDirOf ((collect_remote_directories tree remote_root).get ⟨j, hj⟩)
        ((collect_remote_directories tree remote_root).get ⟨i, hi⟩) := by
  have hp : (collect_remote_directories tree remote_root).Pairwise
      (fun a b => dirOrderLe a b = true) := sortRemoteDirectories_pairwise _
  have hrel := List.pairwise_iff_get.mp hp ⟨i, hi⟩ ⟨j, hj⟩ hij
  refine ⟨dirOrderLe_depth _ _ hrel, ?_⟩
  intro hpar
  have h1 := depth_parent_lt _ _ hpar
  have h2 := dirOrderLe_depth _ _ hrel
  omega

/-- Claim C7 witness: the first two entries of a concrete two-level
tree's creation list. -/
theorem collect_dirs_c7_witness :
    (0 < (collect_remote_directories [FsEntry.dir ("a".toList) [FsEntry.dir ("b".toList) []]]
        ("/x".toList)).length)
    ∧ (1 < (collect_remote_directories [FsEntry.dir ("a".toList) [FsEntry.dir ("b".toList) []]]
        ("/x".toList)).length)
    ∧ 0 < 1
    ∧ (directory_depth ((collect_remote_directories [FsEntry.dir ("a".toList)
          [FsEntry.dir ("b".toList) []]] ("/x".toList)).get ⟨0, by decide⟩)
        ≤ directory_depth ((collect_remote_directories [FsEntry.dir ("a".toList)
          [FsEntry.dir ("b".toList) []]] ("/x".toList)).get ⟨1, by decide⟩)
      ∧ ¬ isParentDirOf ((collect_remote_directories [FsEntry.dir ("a".toList)
          [FsEntry.dir ("b".toList) []]] ("/x".toList)).get ⟨1, by decide⟩)
          ((collect_remote_directories [FsEntry.dir ("a".toList)
          [FsEntry.dir ("b".toList) []]] ("/x".toList)).get ⟨0, by decide⟩)) :=
  ⟨by decide, by decide, by decide,
   collect_dirs_c7 [FsEntry.dir ("a".toList) [FsEntry.dir ("b".toList) []]] ("/x".toList)
     0 1 (by decide) (by decide) (by decide)⟩

/-! ### Theorems about the dry run and mkdir deduplication (claims C8, C10) -/

theorem ensure_dry (d : List Char) (core : WalkCore) :
    ensure_remote_dir d core true
      = ((ensure_remote_dir d core false).1,
         (ensure_remote_dir d core false).2.filter keepDry) := by
  rw [ensure_remote_dir, ensure_remote_dir]
  by_cases h1 : normalize_remote_dir_path d ∈ core.created
  · simp [h1]
  · simp only [h1]
    by_cases h2 : normalize_remote_dir_path d = rootPath
    · rw [h2] at h1
      simp [h1, h2]
    · simp [h1, h2, keepDry]

theorem drv_push_dry (oracle : StatOracle) (p : List Char) (len : Nat) (st : SyncStats) :
    drv_push_file oracle p len st true
      = ((drv_push_file oracle p len st false).1,
         (drv_push_file oracle p len st false).2.filter keepDry) := by
  rw [drv_push_file, drv_push_file, file_is_unchanged, remote_metadata]
  cases ho : oracle p with
  | found r =>
    by_cases hs : r.file_size ≠ len <;> simp [hs, keepDry]
  | failed msg =>
    by_cases hm : adb_missing_file msg <;> simp [hm, keepDry]
  | transport => simp [keepDry]

theorem create_go_dry (nd nd2 : Bool) (total : Nat) (dirs : List (List Char)) (core : WalkCore) :
    create_remote_dirs_go nd true total dirs core
      = ((create_remote_dirs_go nd2 false total dirs core).1,
         (create_remote_dirs_go nd2 false total dirs core).2.1.map evDry,
         (create_remote_dirs_go nd2 false total dirs core).2.2.filter keepDry) := by
  induction dirs generalizing core with
  | nil => simp [create_remote_dirs_go]
  | cons d rest ih =>
    rw [create_remote_dirs_go, create_remote_dirs_go]
    by_cases h1 : core.created.contains (normalize_remote_dir_path d) = true
    · rw [if_pos h1, if_pos h1]
      exact ih core
    · rw [if_neg h1, if_neg h1]
      by_cases h2 : normalize_remote_dir_path d = rootPath
      · rw [if_pos h2, if_pos h2]
        exact ih _
      · rw [if_neg h2, if_neg h2]
        dsimp only
        rw [ih _]
        cases nd2 <;> simp [keepDry, evDry]



mutual

theorem syncEntry_dry (oracle : StatOracle) (rr : List Char) (total : Nat)
    (rel : List (List Char)) (e : FsEntry) (core : WalkCore) :
    syncEntry oracle rr total true rel e core
      = (syncEntry oracle rr total false rel e core).map
          (fun out => (out.1, out.2.1.map evDry, out.2.2.filter keepDry)) := by
  cases e with
  | file name size =>
    rw [syncEntry, syncEntry]
    by_cases hskip : should_skip_entry name = true
    · simp [hskip, Except.map]
    · simp only [hskip, Bool.false_eq_true, if_false]
      rw [ensure_dry, drv_push_dry]
      cases hpf : drv_push_file oracle (build_remote_path rr (rel ++ [name])) size
          (ensure_remote_dir (build_remote_path rr ((rel ++ [name]).dropLast)) core false).1.stats
          false with
      | mk fst snd =>
        cases fst with
        | error err => simp [Except.map]
        | ok stats2 => simp [Except.map, evDry, keepDry, List.filter_append]
  | dir name entries =>
    rw [syncEntry, syncEntry]
    by_cases hskip : should_skip_entry name = true
    · simp [hskip, Except.map]
    · simp only [hskip, Bool.false_eq_true, if_false]
      rw [ensure_dry, syncList_dry]
      cases hsl : syncList oracle rr total false (rel ++ [name]) entries
          (ensure_remote_dir (build_remote_path rr (rel ++ [name])) core false).1 with
      | error err => simp [Except.map]
      | ok out => simp [Except.map, List.filter_append]
  | special name =>
    rw [syncEntry, syncEntry]
    simp [Except.map]

theorem syncList_dry (oracle : StatOracle) (rr : List Char) (total : Nat)
    (rel : List (List Char)) (es : List FsEntry) (core : WalkCore) :
    syncList oracle rr total true rel es core
      = (syncList oracle rr total false rel es core).map
          (fun out => (out.1, out.2.1.map evDry, out.2.2.filter keepDry)) := by
  cases es with
  | nil =>
    rw [syncList, syncList]
    simp [Except.map]
  | cons e rest =>
    rw [syncList, syncList]
    rw [syncEntry_dry]
    cases hse : syncEntry oracle rr total false rel e core with
    | error err => simp [Except.map]
    | ok out1 =>
      simp only [Except.map]
      obtain ⟨c1, ev1, t1⟩ := out1
      dsimp only
      rw [syncList_dry]
      cases hsl : syncList oracle rr total false rel rest c1 with
      | error err => simp [Except.map]
      | ok out2 =>
        obtain ⟨c2, ev2, t2⟩ := out2
        simp [Except.map, List.filter_append]

end




/-- Claim C10: a dry run of the whole sync is the real run with the
mkdir and push operations removed from the issued device operations
(STAT queries are still issued, in the same order) and with the dry_run
flag set in the summary and every progress event — in particular
`directories_created`, `files_synced` and `bytes_uploaded` are computed
exactly as in the real run. -/
theorem perform_sync_c10 (tree : List FsEntry) (device_path : List Char) (oracle : StatOracle) :
    perform_sync tree device_path true oracle
      = (perform_sync tree device_path false oracle).map
          (fun out => ({out.1 with dry_run := true},
                       out.2.1.map evDry,
                       out.2.2.filter keepDry)) := by
  rw [perform_sync, perform_sync]
  cases hn : normalize_remote_path device_path with
  | error e => simp [Except.map]
  | ok remote_root =>
    dsimp only
    rw [create_remote_directories, create_remote_directories]
    simp only [Bool.not_true, Bool.not_false, Bool.false_and, Bool.true_and]
    rw [create_go_dry false
      (List.any (collect_remote_directories tree remote_root)
        (fun d => !(normalize_remote_dir_path d == rootPath)))]
    rw [ensure_dry, syncList_dry]
    cases hsl : syncList oracle remote_root
        (countList tree +
          (List.filter (fun d => !(normalize_remote_dir_path d == rootPath))
            (collect_remote_directories tree remote_root)).length)
        false [] tree
        (ensure_remote_dir remote_root
          (create_remote_dirs_go
            (List.any (collect_remote_directories tree remote_root)
              (fun d => !(normalize_remote_dir_path d == rootPath)))
            false
            (countList tree +
              (List.filter (fun d => !(normalize_remote_dir_path d == rootPath))
                (collect_remote_directories tree remote_root)).length)
            (collect_remote_directories tree remote_root)
            (WalkCore.mk [] {} 0)).1
          false).1 with
    | error e => simp [Except.map]
    | ok out =>
      obtain ⟨c3, evs3, tr3⟩ := out
      simp [Except.map, evDry, keepDry, List.filter_append, List.map_append]



/-- The mkdir targets of a list of issued device operations. -/
def mkdirsOf (tr : List DevCmd) : List (List Char) :=
  tr.filterMap (fun c => match c with | .mkdirQ p => some p | _ => none)

/-- The mkdir bookkeeping contract of a program phase: the mkdirs it
issues are distinct, each was not yet in the created set before the
phase, is in it afterwards, and is never the root; the created set only
grows. -/
def MkdirSpec (pre post : List (List Char)) (tr : List DevCmd) : Prop :=
  (mkdirsOf tr).Nodup
  ∧ (∀ d ∈ mkdirsOf tr, d ∉ pre ∧ d ∈ post ∧ d ≠ rootPath)
  ∧ pre ⊆ post

theorem mkdirsOf_append (t1 t2 : List DevCmd) :
    mkdirsOf (t1 ++ t2) = mkdirsOf t1 ++ mkdirsOf t2 := by
  simp [mkdirsOf]

theorem MkdirSpec.comp {a b c : List (List Char)} {t1 t2 : List DevCmd}
    (h1 : MkdirSpec a b t1) (h2 : MkdirSpec b c t2) : MkdirSpec a c (t1 ++ t2) := by
  obtain ⟨h1n, h1m, h1s⟩ := h1
  obtain ⟨h2n, h2m, h2s⟩ := h2
  rw [MkdirSpec, mkdirsOf_append]
  refine ⟨?_, ?_, fun x hx => h2s (h1s hx)⟩
  · rw [List.nodup_append]
    refine ⟨h1n, h2n, ?_⟩
    intro x hx1 hx2
    exact (h2m x hx2).1 ((h1m x hx1).2.1)
  · intro d hd
    rcases List.mem_append.mp hd with hd1 | hd2
    · obtain ⟨hna, hb, hr⟩ := h1m d hd1
      exact ⟨hna, h2s hb, hr⟩
    · obtain ⟨hnb, hc, hr⟩ := h2m d hd2
      exact ⟨fun ha => hnb (h1s ha), hc, hr⟩

theorem MkdirSpec.of_empty {a b : List (List Char)} {tr : List DevCmd}
    (hsub : a ⊆ b) (htr : mkdirsOf tr = []) : MkdirSpec a b tr := by
  rw [MkdirSpec, htr]
  exact ⟨List.nodup_nil, by simp, hsub⟩

theorem ensure_mkdir_spec (d : List Char) (core : WalkCore) (dry : Bool) :
    MkdirSpec core.created (ensure_remote_dir d core dry).1.created
      (ensure_remote_dir d core dry).2 := by
  rw [ensure_remote_dir]
  by_cases h1 : core.created.contains (normalize_remote_dir_path d) = true
  · rw [if_pos h1]
    exact MkdirSpec.of_empty (fun x hx => hx) rfl
  · rw [if_neg h1]
    by_cases h2 : normalize_remote_dir_path d = rootPath
    · rw [if_pos h2]
      exact MkdirSpec.of_empty (fun x hx => List.mem_append_left _ hx) rfl
    · rw [if_neg h2]
      cases dry with
      | true =>
        exact MkdirSpec.of_empty (fun x hx => List.mem_append_left _ hx) rfl
      | false =>
        refine ⟨by simp [mkdirsOf], ?_, fun x hx => List.mem_append_left _ hx⟩
        intro x hx
        simp [mkdirsOf] at hx
        subst hx
        refine ⟨?_, by simp, h2⟩
        intro hmem
        exact h1 (List.contains_iff_exists_mem_beq.mpr ⟨_, hmem, by simp⟩)

theorem drv_push_no_mkdirs (oracle : StatOracle) (p : List Char) (len : Nat)
    (st : SyncStats) (dry : Bool) :
    mkdirsOf (drv_push_file oracle p len st dry).2 = [] := by
  rw [drv_push_file, file_is_unchanged, remote_metadata]
  cases ho : oracle p with
  | found r =>
    by_cases hs : r.file_size ≠ len <;> cases dry <;> simp [hs, mkdirsOf]
  | failed msg =>
    by_cases hm : adb_missing_file msg <;> cases dry <;> simp [hm, mkdirsOf]
  | transport => simp [mkdirsOf]

theorem create_go_mkdir_spec (nd dry : Bool) (total : Nat) (dirs : List (List Char))
    (core : WalkCore) :
    MkdirSpec core.created (create_remote_dirs_go nd dry total dirs core).1.created
      (create_remote_dirs_go nd dry total dirs core).2.2 := by
  induction dirs generalizing core with
  | nil =>
    rw [create_remote_dirs_go]
    exact MkdirSpec.of_empty (fun x hx => hx) rfl
  | cons d rest ih =>
    rw [create_remote_dirs_go]
    by_cases h1 : core.created.contains (normalize_remote_dir_path d) = true
    · rw [if_pos h1]
      exact ih core
    · rw [if_neg h1]
      by_cases h2 : normalize_remote_dir_path d = rootPath
      · rw [if_pos h2]
        have hstep : MkdirSpec core.created
            (WalkCore.mk (core.created ++ [normalize_remote_dir_path d]) core.stats core.processed).created
            [] :=
          MkdirSpec.of_empty (fun x hx => List.mem_append_left _ hx) rfl
        have := MkdirSpec.comp hstep (ih _)
        simpa using this
      · rw [if_neg h2]
        dsimp only
        have hstep : MkdirSpec core.created (core.created ++ [normalize_remote_dir_path d])
            (if (nd && !dry) = true then [DevCmd.mkdirQ (normalize_remote_dir_path d)] else []) := by
          by_cases h3 : (nd && !dry) = true
          · rw [if_pos h3]
            refine ⟨by simp [mkdirsOf], ?_, fun x hx => List.mem_append_left _ hx⟩
            intro x hx
            simp [mkdirsOf] at hx
            subst hx
            refine ⟨?_, by simp, h2⟩
            intro hmem
            exact h1 (List.contains_iff_exists_mem_beq.mpr ⟨_, hmem, by simp⟩)
          · rw [if_neg h3]
            exact MkdirSpec.of_empty (fun x hx => List.mem_append_left _ hx) rfl
        exact MkdirSpec.comp hstep (ih _)



mutual

theorem syncEntry_mkdir_spec (oracle : StatOracle) (rr : List Char) (total : Nat) (dry : Bool)
    (rel : List (List Char)) (e : FsEntry) (core : WalkCore)
    (out : WalkCore × List Event × List DevCmd)
    (h : syncEntry oracle rr total dry rel e core = .ok out) :
    MkdirSpec core.created out.1.created out.2.2 := by
  cases e with
  | file name size =>
    rw [syncEntry] at h
    by_cases hskip : should_skip_entry name = true
    · rw [if_pos hskip] at h
      simp at h
      rw [← h]
      exact MkdirSpec.of_empty (fun x hx => hx) rfl
    · rw [if_neg hskip] at h
      dsimp only at h
      cases hpf : drv_push_file oracle (build_remote_path rr (rel ++ [name])) size
          (ensure_remote_dir (build_remote_path rr ((rel ++ [name]).dropLast)) core dry).1.stats
          dry with
      | mk fst snd =>
        rw [hpf] at h
        cases fst with
        | error err => simp at h
        | ok stats2 =>
          simp at h
          rw [← h]
          refine MkdirSpec.comp (ensure_mkdir_spec _ core dry) ?_
          have hnm : mkdirsOf snd = [] := by
            have := drv_push_no_mkdirs oracle (build_remote_path rr (rel ++ [name])) size
              (ensure_remote_dir (build_remote_path rr ((rel ++ [name]).dropLast)) core dry).1.stats
              dry
            rw [hpf] at this
            exact this
          exact MkdirSpec.of_empty (fun x hx => hx) hnm
  | dir name entries =>
    rw [syncEntry] at h
    by_cases hskip : should_skip_entry name = true
    · rw [if_pos hskip] at h
      simp at h
      rw [← h]
      exact MkdirSpec.of_empty (fun x hx => hx) rfl
    · rw [if_neg hskip] at h
      dsimp only at h
      cases hsl : syncList oracle rr total dry (rel ++ [name]) entries
          (ensure_remote_dir (build_remote_path rr (rel ++ [name])) core dry).1 with
      | error err => rw [hsl] at h; simp at h
      | ok out2 =>
        rw [hsl] at h
        simp at h
        rw [← h]
        exact MkdirSpec.comp (ensure_mkdir_spec _ core dry)
          (syncEntry_mkdir_spec_list oracle rr total dry (rel ++ [name]) entries _ out2 hsl)
  | special name =>
    rw [syncEntry] at h
    simp at h
    rw [← h]
    exact MkdirSpec.of_empty (fun x hx => hx) rfl

theorem syncEntry_mkdir_spec_list (oracle : StatOracle) (rr : List Char) (total : Nat)
    (dry : Bool) (rel : List (List Char)) (es : List FsEntry) (core : WalkCore)
    (out : WalkCore × List Event × List DevCmd)
    (h : syncList oracle rr total dry rel es core = .ok out) :
    MkdirSpec core.created out.1.created out.2.2 := by
  cases es with
  | nil =>
    rw [syncList] at h
    simp at h
    rw [← h]
    exact MkdirSpec.of_empty (fun x hx => hx) rfl
  | cons e rest =>
    rw [syncList] at h
    cases hse : syncEntry oracle rr total dry rel e core with
    | error err => rw [hse] at h; simp at h
    | ok out1 =>
      rw [hse] at h
      dsimp only at h
      cases hsl : syncList oracle rr total dry rel rest out1.1 with
      | error err =>
        obtain ⟨c1, ev1, t1⟩ := out1
        rw [hsl] at h
        simp at h
      | ok out2 =>
        obtain ⟨c1, ev1, t1⟩ := out1
        obtain ⟨c2, ev2, t2⟩ := out2
        rw [hsl] at h
        simp at h
        rw [← h]
        exact MkdirSpec.comp
          (syncEntry_mkdir_spec oracle rr total dry rel e core (c1, ev1, t1) hse)
          (syncEntry_mkdir_spec_list oracle rr total dry rel rest c1 (c2, ev2, t2) hsl)

end



theorem create_rd_mkdir_spec (dirs : List (List Char)) (dry : Bool) (total : Nat)
    (core : WalkCore) :
    MkdirSpec core.created (create_remote_directories dirs dry total core).1.created
      (create_remote_directories dirs dry total core).2.2 :=
  create_go_mkdir_spec _ dry total dirs core

/-- Claim C8: in every completed sync run — dry or not, whatever the
device answers — the mkdir shell command is issued at most once per
normalized remote directory (the list of mkdir targets has no
duplicates) and is never issued for the root path. -/
theorem perform_sync_c8 (tree : List FsEntry) (device_path : List Char) (dry : Bool)
    (oracle : StatOracle) (s : Summary) (evs : List Event) (tr : List DevCmd)
    (h : perform_sync tree device_path dry oracle = .ok (s, evs, tr)) :
    (mkdirsOf tr).Nodup ∧ rootPath ∉ mkdirsOf tr := by
  rw [perform_sync] at h
  cases hn : normalize_remote_path device_path with
  | error e => rw [hn] at h; simp at h
  | ok remote_root =>
    rw [hn] at h
    dsimp only at h
    cases hsl : syncList oracle remote_root
        (countList tree +
          (List.filter (fun d => !(normalize_remote_dir_path d == rootPath))
            (collect_remote_directories tree remote_root)).length)
        dry [] tree
        (ensure_remote_dir remote_root
          (create_remote_directories (collect_remote_directories tree remote_root) dry
            (countList tree +
              (List.filter (fun d => !(normalize_remote_dir_path d == rootPath))
                (collect_remote_directories tree remote_root)).length)
            (WalkCore.mk [] {} 0)).1
          dry).1 with
    | error e => rw [hsl] at h; simp at h
    | ok out =>
      obtain ⟨c3, evs3, tr3⟩ := out
      rw [hsl] at h
      simp at h
      have hspec : MkdirSpec (WalkCore.mk [] {} 0).created c3.created
          ((create_remote_directories (collect_remote_directories tree remote_root) dry
              (countList tree +
                (List.filter (fun d => !(normalize_remote_dir_path d == rootPath))
                  (collect_remote_directories tree remote_root)).length)
              (WalkCore.mk [] {} 0)).2.2
            ++ ((ensure_remote_dir remote_root
                (create_remote_directories (collect_remote_directories tree remote_root) dry
                  (countList tree +
                    (List.filter (fun d => !(normalize_remote_dir_path d == rootPath))
                      (collect_remote_directories tree remote_root)).length)
                  (WalkCore.mk [] {} 0)).1
                dry).2
              ++ tr3)) :=
        MkdirSpec.comp (create_rd_mkdir_spec _ dry _ _)
          (MkdirSpec.comp (ensure_mkdir_spec _ _ dry)
            (syncEntry_mkdir_spec_list oracle remote_root _ dry [] tree _ (c3, evs3, tr3) hsl))
      obtain ⟨-, -, htr⟩ := h
      subst htr
      obtain ⟨hnodup, hmem, -⟩ := hspec
      refine ⟨hnodup, ?_⟩
      intro hroot
      exact (hmem rootPath hroot).2.2 rfl

/-- Claim C8 witness: a concrete run creating one directory. -/
theorem perform_sync_c8_witness :
    perform_sync [] ("/x".toList) false (fun _ => .transport)
      = .ok (Summary.mk 0 0 0 1 0 ("/x".toList) false,
             [Event.mk 0 1 none false, Event.mk 1 1 (some ("/x".toList)) false],
             [DevCmd.mkdirQ ("/x".toList)])
    ∧ ((mkdirsOf [DevCmd.mkdirQ ("/x".toList)]).Nodup
       ∧ rootPath ∉ mkdirsOf [DevCmd.mkdirQ ("/x".toList)]) :=
  ⟨rfl, perform_sync_c8 [] ("/x".toList) false (fun _ => .transport) _ _ _ rfl⟩

end AndroidSync
